import Mathlib

/-!
# Verification of `kinetics_simulator` (`src/chemicalkinetics.py`)

Shallow embedding of the chemical-reaction-network simulator and proofs about
its behaviour.  Numpy arrays indexed by reaction/species are modelled as
functions out of `Fin`; machine floats are modelled as real numbers (`ℝ`);
stoichiometric exponents, which the source obtains via `int(...)`, are `ℕ`.
Python strings are modelled as `String` and `str.split(' ')` / `' '.join` are
modelled character-faithfully on `String.data`.
-/

namespace Kinetics

/-! ## Mass-action reaction sets (`MassActionReactions`, lines 214–250)

A populated `MassActionReactions` object holds, for `R` reactions over `S`
species, the substrate-stoichiometry matrix `A` (R×S), the net-stoichiometry
matrix `N` (R×S), the rate names, and the rate values; the rate matrix `K` is
`np.diag(rates)`. -/

structure MassAction (R S : ℕ) where
  reactions : Fin R → String
  A : Matrix (Fin R) (Fin S) ℕ
  N : Matrix (Fin R) (Fin S) ℝ
  rate_names : Fin R → String
  rates : Fin R → ℝ

/-- `self.K = np.diag(np.array(rates))` (line 246). -/
def MassAction.K {R S : ℕ} (ma : MassAction R S) : Matrix (Fin R) (Fin R) ℝ :=
  Matrix.diagonal ma.rates

/-- `np.prod(np.power(concentrations, self.mass_action_reactions.A), axis=1)`
(line 196): entry `i` is `∏ j, conc j ^ A i j`. -/
def MassAction.monomials {R S : ℕ} (ma : MassAction R S) (conc : Fin S → ℝ) :
    Fin R → ℝ :=
  fun i => ∏ j, conc j ^ ma.A i j

/-- `np.dot(self.mass_action_reactions.K, ...)` applied to the monomial vector
(line 196): the per-reaction mass-action rate vector. -/
def MassAction.rateVector {R S : ℕ} (ma : MassAction R S) (conc : Fin S → ℝ) :
    Fin R → ℝ :=
  ma.K.mulVec (ma.monomials conc)

/-- `compute_mass_action_rates` (lines 195–196):
`np.dot(N.T, np.dot(K, np.prod(np.power(concentrations, A), axis=1)))`. -/
def MassAction.computeRates {R S : ℕ} (ma : MassAction R S) (conc : Fin S → ℝ) :
    Fin S → ℝ :=
  ma.N.transpose.mulVec (ma.rateVector conc)

lemma diagonal_mulVec_apply {n : ℕ} (d v : Fin n → ℝ) (i : Fin n) :
    (Matrix.diagonal d).mulVec v i = d i * v i := by
  simp [Matrix.mulVec, Matrix.dotProduct, Matrix.diagonal, Finset.sum_ite_eq, ite_mul]

/-- **C1.** The mass-action derivative contribution is `N^T · rates` with
`rates i = k i * ∏ j, conc j ^ A i j`, and a species with `A i j₀ = 0` does not
affect reaction `i`'s rate. -/
theorem massAction_computeRates_spec {R S : ℕ} (ma : MassAction R S)
    (conc : Fin S → ℝ) :
    (∀ j, ma.computeRates conc j =
      ∑ i, ma.N i j * (ma.rates i * ∏ j', conc j' ^ ma.A i j')) ∧
    (∀ (i : Fin R) (j₀ : Fin S) (x : ℝ), ma.A i j₀ = 0 →
      ma.rateVector (Function.update conc j₀ x) i = ma.rateVector conc i) := by
  have hr : ∀ c i, ma.rateVector c i = ma.rates i * ma.monomials c i := by
    intro c i
    rw [MassAction.rateVector, MassAction.K, diagonal_mulVec_apply]
  constructor
  · intro j
    simp only [MassAction.computeRates, Matrix.mulVec, Matrix.dotProduct,
      Matrix.transpose_apply]
    exact Finset.sum_congr rfl fun i _ => by rw [hr, MassAction.monomials]
  · intro i j₀ x h
    have hmono : ma.monomials (Function.update conc j₀ x) i = ma.monomials conc i := by
      unfold MassAction.monomials
      refine Finset.prod_congr rfl ?_
      intro j _
      by_cases hj : j = j₀
      · subst hj; rw [h]; simp
      · rw [Function.update_noteq hj]
    rw [hr, hr, hmono]

/-- Concrete instance for `massAction_computeRates_spec`: one reaction
`A -> B` with rate 2 over two species. -/
def maExample : MassAction 1 2 where
  reactions := fun _ => "A -> B"
  A := !![1, 0]
  N := !![-1, 1]
  rate_names := fun _ => "k1"
  rates := fun _ => 2

theorem massAction_computeRates_spec_witness :
    (∀ j, maExample.computeRates ![3, 5] j =
      ∑ i, maExample.N i j * (maExample.rates i * ∏ j', (![3, 5] : Fin 2 → ℝ) j' ^ maExample.A i j')) ∧
    maExample.rateVector (Function.update ![3, 5] 1 (7 : ℝ)) 0 =
      maExample.rateVector ![3, 5] 0 :=
  ⟨(massAction_computeRates_spec maExample ![3, 5]).1,
    (massAction_computeRates_spec maExample ![3, 5]).2 0 1 7 (by decide)⟩

/-! ## Michaelis-Menten reaction sets (`MichaelisMentenReactions`, lines 252–319)

A populated object stores, for `M` reactions over `n` species, parallel arrays
of substrate/enzyme/product species indices, substrate/product stoichiometries
and the `Km`/`kcat` constants. -/

structure MichaelisMenten (n M : ℕ) where
  reactions : Fin M → String
  substrate_indices : Fin M → Fin n
  substrate_stoichiometries : Fin M → ℝ
  product_indices : Fin M → Fin n
  product_stoichiometries : Fin M → ℝ
  enzyme_indices : Fin M → Fin n
  Km_names : Fin M → String
  Kms : Fin M → ℝ
  kcat_names : Fin M → String
  kcats : Fin M → ℝ

/-- Numpy fancy-index assignment `base[indices] = values` (lines 317–318):
writes happen in index-array order, so a duplicated index keeps only the
**last** value written (no accumulation). -/
def scatterAssign {n : ℕ} (base : Fin n → ℝ) (pairs : List (Fin n × ℝ)) :
    Fin n → ℝ :=
  pairs.foldl (fun acc p => Function.update acc p.1 p.2) base

namespace MichaelisMenten

variable {n M : ℕ}

/-- `term1 = np.vstack((substrate_vector, enzyme_vector, self.Kms)).sum(axis=0)`
(line 312). -/
def term1 (r : MichaelisMenten n M) (conc : Fin n → ℝ) (i : Fin M) : ℝ :=
  conc (r.substrate_indices i) + conc (r.enzyme_indices i) + r.Kms i

/-- The argument handed to `np.sqrt` (lines 313–314):
`t1, t2 = np.square(term1), np.vstack((enzyme_vector, substrate_vector)).prod(axis=0) * 4`
and then `np.subtract(t1, t2)`.  Note: the raw difference is used, with no
clamping. -/
def sqrtArg (r : MichaelisMenten n M) (conc : Fin n → ℝ) (i : Fin M) : ℝ :=
  r.term1 conc i ^ 2 -
    conc (r.enzyme_indices i) * conc (r.substrate_indices i) * 4

/-- `_velocities = np.vstack((np.subtract(term1, term2), np.divide(self.kcats, 2))).prod(axis=0)`
(lines 314–315), with `term2 = np.sqrt(...)` modelled by `Real.sqrt`. -/
noncomputable def velocity (r : MichaelisMenten n M) (conc : Fin n → ℝ) (i : Fin M) : ℝ :=
  (r.term1 conc i - Real.sqrt (r.sqrtArg conc i)) * (r.kcats i / 2)

/-- `compute_velocities` (lines 302–319): the per-species derivative vector.
`substrate_velocities`/`product_velocities` start as zero vectors and are
written by fancy-index assignment, then summed. -/
noncomputable def computeVelocities (r : MichaelisMenten n M) (conc : Fin n → ℝ) :
    Fin n → ℝ :=
  let substrate_velocities :=
    scatterAssign (fun _ => 0)
      (List.ofFn fun i =>
        (r.substrate_indices i, r.velocity conc i * r.substrate_stoichiometries i * (-1)))
  let product_velocities :=
    scatterAssign (fun _ => 0)
      (List.ofFn fun i =>
        (r.product_indices i, r.velocity conc i * r.product_stoichiometries i))
  fun j => substrate_velocities j + product_velocities j

end MichaelisMenten

/-- **C2.** Each reaction's velocity is `kcat * (term1 - term2) / 2` with
`term1 = s + e + Km` and `term2 = sqrt (term1 ^ 2 - 4 * e * s)`, where `s` and
`e` are the concentrations at the reaction's substrate and enzyme indices. -/
theorem michaelisMenten_velocity_spec {n M : ℕ} (r : MichaelisMenten n M)
    (conc : Fin n → ℝ) (i : Fin M) :
    r.velocity conc i =
      r.kcats i *
        ((conc (r.substrate_indices i) + conc (r.enzyme_indices i) + r.Kms i) -
          Real.sqrt
            ((conc (r.substrate_indices i) + conc (r.enzyme_indices i) + r.Kms i) ^ 2 -
              4 * conc (r.enzyme_indices i) * conc (r.substrate_indices i))) / 2 := by
  rw [MichaelisMenten.velocity, MichaelisMenten.sqrtArg, MichaelisMenten.term1]
  rw [show conc (r.enzyme_indices i) * conc (r.substrate_indices i) * 4 =
    4 * conc (r.enzyme_indices i) * conc (r.substrate_indices i) by ring]
  ring

/-- A Michaelis-Menten "reaction set" with a single reaction over two species:
substrate at index 0, enzyme at index 1, product also at index 0 is not used —
here the product index is irrelevant, the instance exists to evaluate
`sqrtArg` with `Km = -8`. -/
def mmNegKm : MichaelisMenten 2 1 where
  reactions := fun _ => "S + E -> P + E"
  substrate_indices := fun _ => 0
  substrate_stoichiometries := fun _ => 1
  product_indices := fun _ => 0
  product_stoichiometries := fun _ => 1
  enzyme_indices := fun _ => 1
  Km_names := fun _ => "Km"
  Kms := fun _ => -8
  kcat_names := fun _ => "kcat"
  kcats := fun _ => 1

/-- **C4 counterexample.**  The value `compute_velocities` hands to `np.sqrt`
is the raw discriminant, not a clamped one: with `s = e = 4` and `Km = -8` it
is `-64 < 0`, so no clamp to zero happens before the square root (lines
313–314 apply `np.sqrt` directly to `t1 - t2`). -/
theorem michaelisMenten_sqrtArg_not_clamped :
    mmNegKm.sqrtArg ![4, 4] 0 = -64 ∧ mmNegKm.sqrtArg ![4, 4] 0 < 0 := by
  constructor
  · norm_num [MichaelisMenten.sqrtArg, MichaelisMenten.term1, mmNegKm]
  · norm_num [MichaelisMenten.sqrtArg, MichaelisMenten.term1, mmNegKm]

/-- **C4 (amended).**  For non-negative substrate concentration, enzyme
concentration and `Km`, the discriminant `term1^2 - 4*e*s` is non-negative, so
`Real.sqrt` applied to it is its genuine square root and the velocity is a
real number with no domain error; no clamping is present or needed in exact
arithmetic. -/
theorem michaelisMenten_sqrtArg_nonneg {n M : ℕ} (r : MichaelisMenten n M)
    (conc : Fin n → ℝ) (i : Fin M)
    (hs : 0 ≤ conc (r.substrate_indices i))
    (he : 0 ≤ conc (r.enzyme_indices i)) (hk : 0 ≤ r.Kms i) :
    0 ≤ r.sqrtArg conc i ∧
      Real.sqrt (r.sqrtArg conc i) ^ 2 = r.sqrtArg conc i := by
  have h0 : 0 ≤ r.sqrtArg conc i := by
    rw [MichaelisMenten.sqrtArg, MichaelisMenten.term1]
    nlinarith [sq_nonneg (conc (r.substrate_indices i) - conc (r.enzyme_indices i)),
      sq_nonneg (r.Kms i),
      mul_nonneg hk (add_nonneg hs he)]
  exact ⟨h0, Real.sq_sqrt h0⟩

/-- A single MM reaction at the mathematical boundary of the discriminant:
`Km = 0` and `s = e` (substrate index 0, enzyme index 1). -/
def mmBoundary : MichaelisMenten 2 1 where
  reactions := fun _ => "S + E -> P + E"
  substrate_indices := fun _ => 0
  substrate_stoichiometries := fun _ => 1
  product_indices := fun _ => 0
  product_stoichiometries := fun _ => 1
  enzyme_indices := fun _ => 1
  Km_names := fun _ => "Km"
  Kms := fun _ => 0
  kcat_names := fun _ => "kcat"
  kcats := fun _ => 1

theorem michaelisMenten_sqrtArg_nonneg_witness :
    0 ≤ mmBoundary.sqrtArg ![1, 1] 0 ∧
      Real.sqrt (mmBoundary.sqrtArg ![1, 1] 0) ^ 2 = mmBoundary.sqrtArg ![1, 1] 0 :=
  michaelisMenten_sqrtArg_nonneg mmBoundary ![1, 1] 0
    (by norm_num [mmBoundary]) (by norm_num [mmBoundary]) (by norm_num [mmBoundary])

/-- **C6.**  For a single MM reaction with pairwise-distinct substrate, enzyme
and product indices, the derivative vector vanishes at the enzyme index, and
when both stoichiometries are 1 the substrate and product entries cancel. -/
theorem michaelisMenten_single_conservation {n : ℕ} (r : MichaelisMenten n 1)
    (conc : Fin n → ℝ)
    (hse : r.substrate_indices 0 ≠ r.enzyme_indices 0)
    (hpe : r.product_indices 0 ≠ r.enzyme_indices 0)
    (hsp : r.substrate_indices 0 ≠ r.product_indices 0) :
    r.computeVelocities conc (r.enzyme_indices 0) = 0 ∧
      (r.substrate_stoichiometries 0 = 1 → r.product_stoichiometries 0 = 1 →
        r.computeVelocities conc (r.substrate_indices 0) +
          r.computeVelocities conc (r.product_indices 0) = 0) := by
  simp only [MichaelisMenten.computeVelocities, scatterAssign, List.ofFn_succ,
    List.ofFn_zero, List.foldl_cons, List.foldl_nil]
  constructor
  · rw [Function.update_noteq (Ne.symm hse), Function.update_noteq (Ne.symm hpe)]
    norm_num
  · intro h1 h2
    rw [Function.update_same, Function.update_same,
      Function.update_noteq (Ne.symm hsp), Function.update_noteq hsp, h1, h2]
    ring

/-- A single MM reaction over three species: substrate 0, enzyme 1,
product 2, both stoichiometries 1. -/
def mmSingle : MichaelisMenten 3 1 where
  reactions := fun _ => "S + E -> P + E"
  substrate_indices := fun _ => 0
  substrate_stoichiometries := fun _ => 1
  product_indices := fun _ => 2
  product_stoichiometries := fun _ => 1
  enzyme_indices := fun _ => 1
  Km_names := fun _ => "Km"
  Kms := fun _ => 1
  kcat_names := fun _ => "kcat"
  kcats := fun _ => 2

theorem michaelisMenten_single_conservation_witness :
    mmSingle.computeVelocities ![2, 3, 5] (mmSingle.enzyme_indices 0) = 0 ∧
      mmSingle.computeVelocities ![2, 3, 5] (mmSingle.substrate_indices 0) +
        mmSingle.computeVelocities ![2, 3, 5] (mmSingle.product_indices 0) = 0 := by
  have h := michaelisMenten_single_conservation mmSingle ![2, 3, 5]
    (by decide) (by decide) (by decide)
  exact ⟨h.1, h.2 rfl rfl⟩

/-- Two MM reactions sharing their substrate index 0 (and enzyme index 1),
with distinct products 2 and 3: `Km = 1`, `kcat = 2` resp. `4`.  With
concentrations `[2, 2, 0, 0]` the velocities are `2` and `4`. -/
def mmOverlap : MichaelisMenten 4 2 where
  reactions := fun _ => "S + E -> P + E"
  substrate_indices := ![0, 0]
  substrate_stoichiometries := ![1, 1]
  product_indices := ![2, 3]
  product_stoichiometries := ![1, 1]
  enzyme_indices := ![1, 1]
  Km_names := fun _ => "Km"
  Kms := ![1, 1]
  kcat_names := fun _ => "kcat"
  kcats := ![2, 4]

lemma mmOverlap_sqrtArg (i : Fin 2) : mmOverlap.sqrtArg ![2, 2, 0, 0] i = 9 := by
  fin_cases i <;>
    norm_num [MichaelisMenten.sqrtArg, MichaelisMenten.term1, mmOverlap]

lemma mmOverlap_velocity₀ : mmOverlap.velocity ![2, 2, 0, 0] 0 = 2 := by
  rw [MichaelisMenten.velocity, mmOverlap_sqrtArg,
    show (9 : ℝ) = 3 ^ 2 by norm_num, Real.sqrt_sq (by norm_num : (0:ℝ) ≤ 3)]
  norm_num [MichaelisMenten.term1, mmOverlap]

lemma mmOverlap_velocity₁ : mmOverlap.velocity ![2, 2, 0, 0] 1 = 4 := by
  rw [MichaelisMenten.velocity, mmOverlap_sqrtArg,
    show (9 : ℝ) = 3 ^ 2 by norm_num, Real.sqrt_sq (by norm_num : (0:ℝ) ≤ 3)]
  norm_num [MichaelisMenten.term1, mmOverlap]

/-- **C3.**  With two MM reactions sharing substrate index 0 (velocities 2 and
4, stoichiometries 1), fancy-index assignment keeps only the *last* write:
the derivative at index 0 is `-4`, not the additive `-(2 + 4) = -6` that
scatter-add semantics would give. -/
theorem michaelisMenten_shared_substrate_drops_contribution :
    mmOverlap.computeVelocities ![2, 2, 0, 0] 0 = -4 ∧
      mmOverlap.computeVelocities ![2, 2, 0, 0] 0 ≠ -6 := by
  have h : mmOverlap.computeVelocities ![2, 2, 0, 0] 0 = -4 := by
    simp only [MichaelisMenten.computeVelocities, scatterAssign, List.ofFn_succ,
      List.ofFn_zero, List.foldl_cons, List.foldl_nil, Fin.succ_zero_eq_one]
    rw [mmOverlap_velocity₀, mmOverlap_velocity₁]
    norm_num [mmOverlap, Function.update,
      show ((0 : Fin 4) = 3) ↔ False by decide,
      show ((0 : Fin 4) = 2) ↔ False by decide]
  exact ⟨h, by rw [h]; norm_num⟩

/-! ## The combined derivative function (`ChemicalReactionNetwork.integrate`,
lines 183–212)

The network state that `ODEs` can read: both reaction sets and the
initial-concentration vector.  The body of `ODEs` (lines 209–210) and of the
pre-defined rate helpers (lines 194–207) contains only attribute *reads* — no
assignment to `K`, `N`, `A`, `Kms`, `kcats` or `initial_concentrations` — so
its explicit state-passing form returns the state unchanged. -/

structure NetworkState (R n M : ℕ) where
  mass_action_reactions : MassAction R n
  michaelis_menten_reactions : MichaelisMenten n M
  initial_concentrations : Fin n → ℝ

/-- One evaluation of `ODEs` (lines 209–210):
`np.vstack((compute_michaelis_menten_rates(...), compute_mass_action_rates(...))).sum(axis=0)`,
together with the (unchanged) network state it leaves behind. -/
noncomputable def odesStep {R n M : ℕ} (st : NetworkState R n M)
    (conc : Fin n → ℝ) (_time : ℝ) : (Fin n → ℝ) × NetworkState R n M :=
  (fun j => st.michaelis_menten_reactions.computeVelocities conc j +
      st.mass_action_reactions.computeRates conc j,
    st)

/-- `k` successive solver calls of the derivative function on the same trial
concentrations, each starting from the state the previous call left behind. -/
noncomputable def odesRepeated {R n M : ℕ} (st : NetworkState R n M)
    (conc : Fin n → ℝ) (time : ℝ) :
    ℕ → List (Fin n → ℝ) × NetworkState R n M
  | 0 => ([], st)
  | k + 1 =>
      let prev := odesRepeated st conc time k
      let step := odesStep prev.2 conc time
      (prev.1 ++ [step.1], step.2)

/-- **C7.**  The derivative function is side-effect-free: any number of
repeated evaluations leaves the network state (hence `K`, `N`, `A`, `Kms`,
`kcats` and the initial concentrations) unchanged and returns the same
derivative vector every time. -/
theorem odes_side_effect_free {R n M : ℕ} (st : NetworkState R n M)
    (conc : Fin n → ℝ) (time : ℝ) (k : ℕ) :
    odesRepeated st conc time k =
      (List.replicate k (odesStep st conc time).1, st) := by
  induction k with
  | zero => rfl
  | succ k ih =>
      rw [odesRepeated, ih, List.replicate_succ']
      rfl

/-! ## String-level parsing helpers

`str.split(' ')` with an explicit separator keeps empty pieces between
consecutive spaces; `' '.join` is its inverse.  Both are modelled on
`String.data`.  Python's substring test `'<->' in reaction` is modelled by
`hasInfix`. -/

/-- Python `s.split(' ')`: split on every single space, keeping empty
pieces. -/
def pySplit (s : String) : List String :=
  (s.data.splitOn ' ').map String.mk

/-- Python `' '.join(l)`. -/
def pyJoin (l : List String) : String :=
  ⟨List.intercalate [' '] (l.map String.data)⟩

/-- Python `pat in s` (substring containment). -/
def hasInfix (pat : List Char) : List Char → Bool
  | [] => pat.isEmpty
  | c :: t => pat.isPrefixOf (c :: t) || hasInfix pat t

/-! ## The reversible-reaction splitter (`_process_reaction_dict`, lines
48–66)

Loop body for one `(equation, rate-dict)` entry.  The rate dict is modelled
as an association list in key order; `forward_constant, reverse_constant =
reaction_dict[reaction].keys()` requires exactly two entries, and
`split.index('<->')` requires `'<->'` to occur as a token — both failure modes
are modelled as `none`.  `_forward, _reverse = split, split` aliases the
mutated token list, so the forward string joins it as-is and the reverse
string joins its reversal. -/

def processReactionEntry (eq : String) (rates : List (String × ℚ)) :
    Option (List (String × List (String × ℚ))) :=
  if hasInfix "<->".data eq.data then
    match rates with
    | [(forward_constant, fval), (reverse_constant, rval)] =>
      let split := pySplit eq
      if "<->" ∈ split then
        let split' := split.replace "<->" "->"
        some [(pyJoin split', [(forward_constant, fval)]),
              (pyJoin split'.reverse, [(reverse_constant, rval)])]
      else none
    | _ => none
  else
    some [(eq, rates)]

/-- **C5.**  A reversible entry (a `<->` equation with an ordered two-entry
rate dict) splits into exactly two irreversible singleton entries: the forward
equation joins the token sequence with the first `<->` replaced by `->` and
maps to the first rate pair; the reverse equation joins that token sequence
reversed and maps to the second rate pair.  Entries without `<->` pass through
unchanged. -/
theorem processReactionEntry_spec (eq : String) (fk rk : String) (fv rv : ℚ)
    (rates : List (String × ℚ)) :
    (hasInfix "<->".data eq.data = true → "<->" ∈ pySplit eq →
      processReactionEntry eq [(fk, fv), (rk, rv)] =
        some [(pyJoin ((pySplit eq).replace "<->" "->"), [(fk, fv)]),
              (pyJoin (((pySplit eq).replace "<->" "->").reverse), [(rk, rv)])]) ∧
    (hasInfix "<->".data eq.data = false →
      processReactionEntry eq rates = some [(eq, rates)]) := by
  constructor
  · intro hinf hmem
    simp only [processReactionEntry, hinf, if_true, if_pos hmem]
  · intro hninf
    simp only [processReactionEntry, hninf, Bool.false_eq_true, if_false]

theorem processReactionEntry_spec_witness :
    processReactionEntry "A <-> B" [("kf", 1), ("kr", 2)] =
      some [(pyJoin ((pySplit "A <-> B").replace "<->" "->"), [("kf", 1)]),
            (pyJoin (((pySplit "A <-> B").replace "<->" "->").reverse), [("kr", 2)])] ∧
    processReactionEntry "A -> B" [("k1", 3)] = some [("A -> B", [("k1", 3)])] :=
  ⟨(processReactionEntry_spec "A <-> B" "kf" "kr" 1 2 []).1 (by decide) (by decide),
    (processReactionEntry_spec "A -> B" "kf" "kr" 1 2 [("k1", 3)]).2 (by decide)⟩

/-! ## Species discovery (`ChemicalReactionNetwork.__init__`, lines 39–40) -/

/-- The syntax tokens discarded by the species scan (line 39). -/
def syntaxCharacters : List String := ["*", "->", "+", "<->"]

/-- Python `str.isnumeric()` restricted to ASCII digits (the species names in
scope are ASCII): true iff the string is non-empty and all characters are
digits.  Note `''.isnumeric()` is `False`. -/
def pyIsNumeric (s : String) : Bool :=
  !s.data.isEmpty && s.data.all (·.isDigit)

/-- Line 40: split every equation key on single spaces, concatenate, keep
tokens that are neither syntax tokens nor numeric, deduplicate.  Python's
`list(set(...))` order is unspecified (hash-dependent), so this model fixes
one deduplication order and only membership facts are claimed about it. -/
def speciesScan (keys : List String) : List String :=
  (((keys.map pySplit).flatten).filter
    (fun t => !(syntaxCharacters.contains t) && !pyIsNumeric t)).dedup

/-- **C8 counterexample.**  Two equation sets differing only in whitespace
(one extra space) do *not* yield identical species lists: the doubled space
produces an empty-string token, which survives both filters and becomes a
spurious species. -/
theorem speciesScan_whitespace_counterexample :
    "" ∈ speciesScan ["A  + B -> C"] ∧ "" ∉ speciesScan ["A + B -> C"] ∧
      speciesScan ["A  + B -> C"] ≠ speciesScan ["A + B -> C"] := by
  refine ⟨by decide, by decide, fun h => ?_⟩
  have : "" ∈ speciesScan ["A + B -> C"] := h ▸ (by decide : "" ∈ speciesScan ["A  + B -> C"])
  exact (by decide : "" ∉ speciesScan ["A + B -> C"]) this

lemma mem_join_pySplit_filter_ne (keys : List String) (t : String) (ht : t ≠ "") :
    t ∈ (keys.map pySplit).flatten ↔
      t ∈ (keys.map fun k => (pySplit k).filter (· ≠ "")).flatten := by
  simp only [List.mem_flatten, List.mem_map]
  constructor
  · rintro ⟨l, ⟨k, hk, rfl⟩, htl⟩
    exact ⟨(pySplit k).filter (· ≠ ""), ⟨k, hk, rfl⟩, List.mem_filter.2 ⟨htl, by simpa using ht⟩⟩
  · rintro ⟨l, ⟨k, hk, rfl⟩, htl⟩
    exact ⟨pySplit k, ⟨k, hk, rfl⟩, (List.mem_filter.1 htl).1⟩

/-- **C8 (amended).**  Species discovery is stable exactly up to the
empty-string pseudo-species: if two equation sets have the same non-empty
token sequences (i.e. they differ only in the amount of whitespace between
the same tokens), then their species lists contain the same non-empty names.
Runs of spaces can still add `""` as a species, so the full lists need not be
identical (see the counterexample). -/
theorem speciesScan_stable_up_to_empty (keys₁ keys₂ : List String)
    (h : keys₁.map (fun k => (pySplit k).filter (· ≠ "")) =
      keys₂.map (fun k => (pySplit k).filter (· ≠ ""))) (t : String)
    (ht : t ≠ "") :
    t ∈ speciesScan keys₁ ↔ t ∈ speciesScan keys₂ := by
  have hj : t ∈ (keys₁.map pySplit).flatten ↔ t ∈ (keys₂.map pySplit).flatten := by
    rw [mem_join_pySplit_filter_ne keys₁ t ht, h,
      ← mem_join_pySplit_filter_ne keys₂ t ht]
  simp only [speciesScan, List.mem_dedup, List.mem_filter]
  exact and_congr_left fun _ => hj

theorem speciesScan_stable_up_to_empty_witness :
    "B" ∈ speciesScan ["A + B -> C"] ↔ "B" ∈ speciesScan ["A  + B -> C"] :=
  speciesScan_stable_up_to_empty ["A + B -> C"] ["A  + B -> C"] (by decide) "B"
    (by decide)

/-! ## Constructor argument handling (lines 232–250 and 280–300)

Both constructors branch on `set(types)`: all-`None` builds a dummy,
all-`list` builds a populated object, and *any other combination* falls into
an `else: pass` branch that silently leaves every attribute unset.  Arguments
are modelled as `Option` values (`none` = Python `None`, `some` = a list). -/

/-- Outcome of `MassActionReactions.__init__`. -/
inductive MassActionInit where
  | dummy
  | populated (reactions : List String) (A N : List (List ℚ))
      (rate_names : List String) (rates : List ℚ)
  | attributesUnset
  deriving DecidableEq

/-- `MassActionReactions.__init__` (lines 232–250).  The mixed-argument case
is the literal `else: pass`: no exception, attributes never assigned. -/
def mkMassActionReactions (reactions : Option (List String))
    (A N : Option (List (List ℚ))) (rate_names : Option (List String))
    (rates : Option (List ℚ)) : MassActionInit :=
  match reactions, A, N, rate_names, rates with
  | none, none, none, none, none => .dummy
  | some r, some a, some n, some rn, some rs => .populated r a n rn rs
  | _, _, _, _, _ => .attributesUnset

/-- Outcome of `MichaelisMentenReactions.__init__`. -/
inductive MichaelisMentenInit where
  | dummy
  | populated (reactions : List String)
      (substrate_indices : List ℕ) (substrate_stoichiometries : List ℕ)
      (product_indices : List ℕ) (product_stoichiometries : List ℕ)
      (enzyme_indices : List ℕ)
      (Km_names : List String) (Kms : List ℚ)
      (kcat_names : List String) (kcats : List ℚ)
  | attributesUnset
  deriving DecidableEq

/-- `MichaelisMentenReactions.__init__` (lines 280–300).  In the populated
branch `zip(*substrates)` etc. unzip the index/stoichiometry and name/value
pair lists; the mixed-argument case is again a silent `pass`. -/
def mkMichaelisMentenReactions (reactions : Option (List String))
    (substrates : Option (List (ℕ × ℕ))) (enzymes : Option (List ℕ))
    (products : Option (List (ℕ × ℕ))) (Kms : Option (List (String × ℚ)))
    (kcats : Option (List (String × ℚ))) : MichaelisMentenInit :=
  match reactions, substrates, enzymes, products, Kms, kcats with
  | none, none, none, none, none, none => .dummy
  | some r, some s, some e, some p, some km, some kc =>
      .populated r (s.map Prod.fst) (s.map Prod.snd) (p.map Prod.fst)
        (p.map Prod.snd) e (km.map Prod.fst) (km.map Prod.snd)
        (kc.map Prod.fst) (kc.map Prod.snd)
  | _, _, _, _, _, _ => .attributesUnset

/-- **C9.**  Constructing either reaction-set class with a mixed argument
combination (here: a reactions list together with `None` for everything else)
silently does nothing — the result is the attributes-unset outcome of the
`else: pass` branch, not a raised construction error. -/
theorem constructors_mixed_args_silently_pass :
    mkMassActionReactions (some ["A -> B"]) none none none none =
      MassActionInit.attributesUnset ∧
    mkMichaelisMentenReactions (some ["S + E -> P + E"]) none none none none
      none = MichaelisMentenInit.attributesUnset :=
  ⟨rfl, rfl⟩

/-! ## The update-function registry (`_create_update_dictionary` and
`_make_update_function`, lines 149–181)

Each registry entry targets one scalar slot; the targets are tagged by the
`token` passed to `_make_update_function`.  The three sub-dictionaries are
merged as `{**mass_action_update, **michaelis_menten_update,
**initial_concen_update}` (line 181): a later entry silently overrides an
earlier one under the same key.  Python dict insertion is modelled by an
association list in assignment order whose lookup takes the *last* binding. -/

inductive UpdateTarget where
  | rateConstant (index : ℕ)
  | km (index : ℕ)
  | kcat (index : ℕ)
  | initialConcentration (index : ℕ)
  deriving DecidableEq

/-- Python `enumerate` starting at `k`, mapped through `f`. -/
def enumWith {α β : Type} (f : ℕ → α → β) : ℕ → List α → List β
  | _, [] => []
  | k, a :: t => f k a :: enumWith f (k + 1) t

/-- The registry bindings in assignment order: mass-action rate names, then
interleaved `Km`/`kcat` names per MM reaction, then species names
(lines 173–180). -/
def updateBindings (rate_names Km_names kcat_names species : List String) :
    List (String × UpdateTarget) :=
  enumWith (fun i name => (name, UpdateTarget.rateConstant i)) 0 rate_names ++
    (enumWith (fun i p => [(p.1, UpdateTarget.km i), (p.2, UpdateTarget.kcat i)])
      0 (Km_names.zip kcat_names)).flatten ++
    enumWith (fun i name => (name, UpdateTarget.initialConcentration i)) 0 species

/-- `_create_update_dictionary` (lines 166–181) as a lookup function.  A
Python dict maps a key to the value of the *last* assignment under that key,
so lookup scans the binding list in reverse. -/
def createUpdateDictionary (rate_names Km_names kcat_names species : List String)
    (key : String) : Option UpdateTarget :=
  (updateBindings rate_names Km_names kcat_names species).reverse.lookup key

lemma lookup_append {α β : Type} [DecidableEq α] (l₁ l₂ : List (α × β)) (k : α) :
    (l₁ ++ l₂).lookup k = ((l₁.lookup k).elim (l₂.lookup k) some) := by
  induction l₁ with
  | nil => simp [List.lookup]
  | cons p t ih =>
      by_cases hk : k = p.1
      · simp [List.lookup, hk]
      · have hkb : (k == p.1) = false := by simpa using hk
        simp [List.lookup, hkb, ih]

lemma lookup_eq_none_of_not_mem_keys {α β : Type} [DecidableEq α]
    (l : List (α × β)) (k : α) (h : k ∉ l.map Prod.fst) : l.lookup k = none := by
  induction l with
  | nil => rfl
  | cons p t ih =>
      simp only [List.map_cons, List.mem_cons, not_or] at h
      have hkb : (k == p.1) = false := by simpa using h.1
      simp [List.lookup, hkb, ih h.2]

lemma enumWith_species_keys (g : ℕ → UpdateTarget) (k : ℕ) (l : List String) :
    (enumWith (fun i n => (n, g i)) k l).map Prod.fst = l := by
  induction l generalizing k with
  | nil => rfl
  | cons a t ih => simp [enumWith, ih]

lemma lookup_reverse_enumWith (g : ℕ → UpdateTarget) (species : List String)
    (name : String) (h : name ∈ species) (k : ℕ) :
    ∃ i, i < species.length ∧ species.getD i "" = name ∧
      ((enumWith (fun i n => (n, g i)) k species).reverse.lookup name) =
        some (g (k + i)) := by
  induction species generalizing k with
  | nil => simp at h
  | cons a t ih =>
      rw [enumWith, List.reverse_cons, lookup_append]
      by_cases ht : name ∈ t
      · obtain ⟨i, hi, hg, hl⟩ := ih ht (k + 1)
        refine ⟨i + 1, by simpa using hi, by simpa using hg, ?_⟩
        rw [hl]
        simp [Option.elim, Nat.add_assoc, Nat.add_comm 1 i]
      · have ha : name = a := by
          rcases List.mem_cons.1 h with h' | h'
          · exact h'
          · exact absurd h' ht
        have hnone : ((enumWith (fun i n => (n, g i)) (k + 1) t).reverse.lookup name) = none := by
          apply lookup_eq_none_of_not_mem_keys
          rw [List.map_reverse, enumWith_species_keys]
          simpa using ht
        refine ⟨0, by simp, by simpa using ha.symm, ?_⟩
        rw [hnone]
        have hab : (name == a) = true := by simpa using ha
        simp [Option.elim, List.lookup, hab]

/-- **C10.**  When a mass-action rate-constant name, `Km` name or `kcat` name
coincides with a species name, the merged update dictionary maps that key to
an initial-concentration setter (the species sub-dictionary is merged last),
so the parameter setter is silently shadowed. -/
theorem updateDictionary_species_shadows_parameters
    (rate_names Km_names kcat_names species : List String) (name : String)
    (hspecies : name ∈ species)
    (_hparam : name ∈ rate_names ∨ name ∈ Km_names ∨ name ∈ kcat_names) :
    ∃ i, i < species.length ∧ species.getD i "" = name ∧
      createUpdateDictionary rate_names Km_names kcat_names species name =
        some (UpdateTarget.initialConcentration i) := by
  obtain ⟨i, hi, hg, hl⟩ :=
    lookup_reverse_enumWith UpdateTarget.initialConcentration species name hspecies 0
  refine ⟨i, hi, hg, ?_⟩
  rw [createUpdateDictionary, updateBindings, List.reverse_append,
    List.reverse_append, lookup_append, lookup_append, hl]
  simp [Option.elim]

theorem updateDictionary_species_shadows_parameters_witness :
    ∃ i, i < (["k1", "B"] : List String).length ∧
      (["k1", "B"] : List String).getD i "" = "k1" ∧
      createUpdateDictionary ["k1"] [] [] ["k1", "B"] "k1" =
        some (UpdateTarget.initialConcentration i) :=
  updateDictionary_species_shadows_parameters ["k1"] [] [] ["k1", "B"] "k1"
    (by decide) (Or.inl (by decide))

end Kinetics
